import Mathlib

/-!
Verification of the smart-safe firmware core against its specification.

The definitions below are shallow embeddings of the C sources:
  - src/main/state_machine/state_machine.c
  - src/main/pin_manager/pin_manager.c
  - src/main/json_protocol/json_protocol.c
  - src/main/comm_task/comm_task.c (event ring buffer)
Machine integers are modelled as Nat with explicit reductions modulo
2^8 or 2^32 where the C code can overflow.  FreeRTOS mutexes taken with
portMAX_DELAY always succeed and are dropped from the sequential model.
-/

namespace SmartSafe

/-! Data model shared across tasks (src/main/queue_manager/queue_manager.h). -/

/-- safe_state_t from queue_manager.h. -/
inductive safe_state_t where
  | STATE_LOCKED
  | STATE_UNLOCKED
  | STATE_ALARM
  deriving DecidableEq, Inhabited

/-- safe_event_t from state_machine.h. -/
inductive safe_event_t where
  | EVENT_CORRECT_PIN
  | EVENT_WRONG_PIN
  | EVENT_MOVEMENT
  deriving DecidableEq, Inhabited

/-- safe_state_machine_t from state_machine.h.  wrong_count is a uint8_t;
it is kept as a Nat and reduced modulo 256 at the single place the C code
increments it. -/
structure safe_state_machine_t where
  current_state : safe_state_t
  wrong_count : Nat
  deriving DecidableEq, Inhabited

/-- MAX_WRONG_ATTEMPTS from state_machine.c. -/
def MAX_WRONG_ATTEMPTS : Nat := 3

/-- state_machine_init from state_machine.c. -/
def state_machine_init : safe_state_machine_t :=
  { current_state := .STATE_LOCKED, wrong_count := 0 }

/-- set_locked helper from state_machine.c. -/
def set_locked (sm : safe_state_machine_t) : safe_state_machine_t :=
  { sm with current_state := .STATE_LOCKED, wrong_count := 0 }

/-- set_unlocked helper from state_machine.c. -/
def set_unlocked (sm : safe_state_machine_t) : safe_state_machine_t :=
  { sm with current_state := .STATE_UNLOCKED, wrong_count := 0 }

/-- set_alarm helper from state_machine.c (does not touch wrong_count). -/
def set_alarm (sm : safe_state_machine_t) : safe_state_machine_t :=
  { sm with current_state := .STATE_ALARM }

/-- state_machine_process_event from state_machine.c.  The uint8_t
increment sm->wrong_count++ is modelled as addition modulo 256. -/
def state_machine_process_event (sm : safe_state_machine_t) (event : safe_event_t) :
    safe_state_machine_t :=
  match sm.current_state with
  | .STATE_LOCKED =>
      match event with
      | .EVENT_CORRECT_PIN => set_unlocked sm
      | .EVENT_WRONG_PIN =>
          let sm' := { sm with wrong_count := (sm.wrong_count + 1) % 256 }
          if MAX_WRONG_ATTEMPTS ≤ sm'.wrong_count then set_alarm sm' else sm'
      | .EVENT_MOVEMENT => set_alarm sm
  | .STATE_UNLOCKED =>
      match event with
      | .EVENT_CORRECT_PIN => set_locked sm
      | _ => sm
  | .STATE_ALARM =>
      match event with
      | .EVENT_CORRECT_PIN => set_locked sm
      | _ => sm

/-- Run the state machine from the initial state over a list of events. -/
def runSM (es : List safe_event_t) : safe_state_machine_t :=
  es.foldl state_machine_process_event state_machine_init

/-- Modelled from the spec (section 8, first testable property): one step
of the counter of cumulative wrong PIN attempts made while the machine is
in the Locked state since the last reset, a reset being a correct PIN
entry (which sets wrong_count to 0 in every state of the transition
table).  The machine state component is carried along only to know
whether the machine is currently Locked. -/
def wrongSinceResetStep (p : safe_state_machine_t × Nat) (e : safe_event_t) :
    safe_state_machine_t × Nat :=
  (state_machine_process_event p.1 e,
    match e with
    | .EVENT_CORRECT_PIN => 0
    | .EVENT_WRONG_PIN =>
        if p.1.current_state = .STATE_LOCKED then p.2 + 1 else p.2
    | .EVENT_MOVEMENT => p.2)

/-- Modelled from the spec: cumulative wrong attempts while Locked since
the last reset, over a whole event trace from the initial state. -/
def wrongSinceReset (es : List safe_event_t) : Nat :=
  (es.foldl wrongSinceResetStep (state_machine_init, 0)).2

/-- Modelled from the spec (section 4.2 transition table), row by row.
wrong_count is a u8 in the spec data model, so its increment is taken
modulo 256. -/
def spec_transition_table (sm : safe_state_machine_t) (e : safe_event_t) :
    safe_state_machine_t :=
  match sm.current_state, e with
  | .STATE_LOCKED, .EVENT_CORRECT_PIN => { current_state := .STATE_UNLOCKED, wrong_count := 0 }
  | .STATE_LOCKED, .EVENT_WRONG_PIN =>
      if MAX_WRONG_ATTEMPTS ≤ (sm.wrong_count + 1) % 256 then
        { current_state := .STATE_ALARM, wrong_count := (sm.wrong_count + 1) % 256 }
      else
        { current_state := .STATE_LOCKED, wrong_count := (sm.wrong_count + 1) % 256 }
  | .STATE_LOCKED, .EVENT_MOVEMENT => { current_state := .STATE_ALARM, wrong_count := sm.wrong_count }
  | .STATE_UNLOCKED, .EVENT_CORRECT_PIN => { current_state := .STATE_LOCKED, wrong_count := 0 }
  | .STATE_UNLOCKED, .EVENT_WRONG_PIN => sm
  | .STATE_UNLOCKED, .EVENT_MOVEMENT => sm
  | .STATE_ALARM, .EVENT_CORRECT_PIN => { current_state := .STATE_LOCKED, wrong_count := 0 }
  | .STATE_ALARM, .EVENT_WRONG_PIN => sm
  | .STATE_ALARM, .EVENT_MOVEMENT => sm

/-! Pin manager (src/main/pin_manager/pin_manager.c).  PIN strings are
modelled as lists of characters; the byte-level constant-time comparison
works on lists of byte values (Nat), where a C string is the list of its
bytes before the NUL terminator. -/

/-- PIN_LENGTH from pin_manager.h. -/
def PIN_LENGTH : Nat := 4

/-- MAX_PIN_LENGTH from queue_manager.h (4-digit PIN + terminator, with
room for longer codes). -/
def MAX_PIN_LENGTH : Nat := 8

/-- pin_manager_validate from pin_manager.c: the PIN must have exactly
PIN_LENGTH characters, all decimal digits. -/
def pin_manager_validate (pin : List Char) : Bool :=
  if pin.length ≠ PIN_LENGTH then false
  else pin.all (fun c => decide ('0' ≤ c ∧ c ≤ '9'))

/-- pin_manager_set from pin_manager.c.  The NVS storage collaborator is
abstracted by its current content nvs and a success flag nvs_ok for
save_pin_to_nvs (on failure NVS is left unchanged).  The mutex take with
portMAX_DELAY always succeeds in the sequential model.  Result:
(return value, in-memory PIN, persisted PIN); the strncpy into
current_pin keeps at most MAX_PIN_LENGTH - 1 characters. -/
def pin_manager_set (ram nvs new_pin : List Char) (nvs_ok : Bool) :
    Bool × List Char × List Char :=
  if pin_manager_validate new_pin = false then (false, ram, nvs)
  else if nvs_ok = false then (false, ram, nvs)
  else (true, new_pin.take (MAX_PIN_LENGTH - 1), new_pin)

/-- constant_time_strcmp from pin_manager.c, with the accumulated diff as
an explicit argument.  The two list arguments are the remaining suffixes
of the two C strings; a byte read past the end of a string yields the NUL
terminator 0.  The first three arms are the final statement
diff |= a[i] ^ b[i] executed when the while condition fails at a string
end; the last arm is one loop iteration (or the final statement, when it
stops at an interior zero byte). -/
def constant_time_strcmp_go (diff : Nat) : List Nat → List Nat → Nat
  | [], [] => diff ||| (0 ^^^ 0)
  | [], b :: _ => diff ||| (0 ^^^ b)
  | a :: _, [] => diff ||| (a ^^^ 0)
  | a :: as, b :: bs =>
      if a ≠ 0 ∧ b ≠ 0 then constant_time_strcmp_go (diff ||| (a ^^^ b)) as bs
      else diff ||| (a ^^^ b)

/-- constant_time_strcmp from pin_manager.c (diff starts at 0). -/
def constant_time_strcmp (a b : List Nat) : Nat :=
  constant_time_strcmp_go 0 a b

/-- Number of XOR-accumulate statements executed by
constant_time_strcmp, counting the loop iterations plus the final
accumulation after the loop. -/
def constant_time_strcmp_iterations : List Nat → List Nat → Nat
  | [], _ => 1
  | _ :: _, [] => 1
  | a :: as, b :: bs =>
      if a ≠ 0 ∧ b ≠ 0 then 1 + constant_time_strcmp_iterations as bs else 1

/-- pin_manager_verify from pin_manager.c: copies the stored PIN under
the mutex (always succeeds sequentially) and reports whether the
constant-time comparison of the byte strings returns 0. -/
def pin_manager_verify (entered_pin stored_pin : List Char) : Bool :=
  decide (constant_time_strcmp (entered_pin.map Char.toNat)
    (stored_pin.map Char.toNat) = 0)

/-! JSON protocol (src/main/json_protocol/json_protocol.c).  JSON text
parsing and printing are done by the external cJSON collaborator; the
model works on the parsed tree: a JSON value is the cJSON node. -/

/-- event_type_t from queue_manager.h. -/
inductive event_type_t where
  | EVT_STATE_CHANGE
  | EVT_MOVEMENT
  | EVT_CODE_RESULT
  | EVT_CODE_CHANGED
  deriving DecidableEq, Inhabited

/-- event_t from queue_manager.h.  movement_amount is a float in C but is
never read by any embedded function, so it is kept opaque as an Int.  The
vibration field is read by the EVT_VIBRATION branch of json_protocol.c
although it is absent from the current queue_manager.h event_t (the .c
file is stale and does not compile against the current header); it is
included here so that that branch can be modelled as written. -/
structure event_t where
  type : event_type_t
  timestamp : Nat
  state : safe_state_t
  movement_amount : Int
  code_ok : Bool
  vibration : Bool
  deriving DecidableEq, Inhabited

/-- command_type_t from queue_manager.h. -/
inductive command_type_t where
  | CMD_LOCK
  | CMD_UNLOCK
  | CMD_SET_CODE
  | CMD_RESET_ALARM
  | CMD_SET_SENSITIVITY
  deriving DecidableEq, Inhabited

/-- command_t from queue_manager.h.  The sensitivity field is never
written by json_to_command (the C code leaves it uninitialized), so it is
omitted from the model. -/
structure command_t where
  type : command_type_t
  code : List Char
  deriving DecidableEq, Inhabited

/-- A parsed JSON value, i.e. a cJSON node. -/
inductive Json where
  | null
  | bool (b : Bool)
  | num (n : Int)
  | str (s : String)
  | arr (elems : List Json)
  | obj (fields : List (String × Json))

/-- cJSON_GetObjectItem: the first field of an object with the given
key. -/
def getObjectItem (fields : List (String × Json)) (key : String) : Option Json :=
  (fields.find? (fun f => f.1 == key)).map (fun f => f.2)

/-- The keys of a JSON object, in insertion order. -/
def jsonKeys : Json → List String
  | .obj fields => fields.map (fun f => f.1)
  | _ => []

/-- state_to_string from json_protocol.c (the default arm returning
"unknown" is unreachable: the enum has exactly the three states). -/
def state_to_string : safe_state_t → String
  | .STATE_LOCKED => "locked"
  | .STATE_UNLOCKED => "unlocked"
  | .STATE_ALARM => "alarm"

/-- event_to_json from json_protocol.c, as the JSON tree it builds
(cJSON_PrintUnformatted and the snprintf into the caller's buffer are
collaborator mechanics).  The switch in the C file names EVT_VIBRATION —
the value-1 member of an older revision of the event enum, today called
EVT_MOVEMENT — and reads event->vibration; EVT_CODE_CHANGED does not
appear in the switch, so no event field is emitted for it. -/
def event_to_json (e : event_t) : Json :=
  Json.obj ([("ts", Json.num (e.timestamp : Int)),
    ("state", Json.str (state_to_string e.state))] ++
    (match e.type with
     | .EVT_STATE_CHANGE => [("event", Json.str ("state_change"))]
     | .EVT_MOVEMENT => [("event", Json.str ("vibration")), ("vibration", Json.bool e.vibration)]
     | .EVT_CODE_RESULT => [("event", Json.str ("code_entry")), ("code_ok", Json.bool e.code_ok)]
     | .EVT_CODE_CHANGED => []))

/-- json_to_command from json_protocol.c, on the parsed tree (a text that
cJSON fails to parse never reaches this logic; a non-object root has no
items, so the command lookup fails).  The code length check rejects
strings longer than sizeof(cmd->code) - 1 = MAX_PIN_LENGTH - 1 = 7 and
the strncpy keeps at most 7 characters.  Only lock, unlock and set_code
are recognized; any other command string is rejected. -/
def json_to_command (j : Json) : Option command_t :=
  match j with
  | .obj fields =>
      match getObjectItem fields ("command") with
      | some (.str cmd) =>
          if cmd = "lock" then some { type := .CMD_LOCK, code := [] }
          else if cmd = "unlock" then some { type := .CMD_UNLOCK, code := [] }
          else if cmd = "set_code" then
            match getObjectItem fields ("code") with
            | some (.str code) =>
                if MAX_PIN_LENGTH - 1 < code.length then none
                else some { type := .CMD_SET_CODE, code := code.toList.take (MAX_PIN_LENGTH - 1) }
            | _ => none
          else none
      | _ => none
  | _ => none

/-! Telemetry ring buffer (src/main/comm_task/comm_task.c).  The
event_buffer_mutex is taken with portMAX_DELAY, so every take succeeds in
the sequential model.  xTaskGetTickCount() values are passed in as now
arguments. -/

/-- EVENT_BUFFER_SIZE from comm_task.c. -/
def EVENT_BUFFER_SIZE : Nat := 10

/-- One past the largest uint32_t value: TickType_t arithmetic is modulo
this. -/
def UINT32_MOD : Nat := 4294967296

/-- portTICK_PERIOD_MS at the default ESP-IDF 100 Hz tick rate. -/
def portTICK_PERIOD_MS : Nat := 10

/-- timeout_ticks in check_pending_timeouts: pdMS_TO_TICKS(10000), the
10-second delivery deadline, at the 100 Hz tick rate. -/
def timeout_ticks : Nat := 1000

/-- buffered_event_t from comm_task.c. -/
structure buffered_event_t where
  event : event_t
  msg_id : Int
  pending : Bool
  timestamp : Nat
  deriving DecidableEq, Inhabited

/-- event_ring_buffer_t from comm_task.c; the C array of
EVENT_BUFFER_SIZE entries is the list events of length 10. -/
structure event_ring_buffer_t where
  events : List buffered_event_t
  head : Nat
  tail : Nat
  count : Nat
  deriving DecidableEq, Inhabited

/-- The initial static event_buffer: head = tail = count = 0 (the array
contents start as default entries; they are never read before being
written). -/
def empty_buffer : event_ring_buffer_t :=
  { events := List.replicate EVENT_BUFFER_SIZE default,
    head := 0, tail := 0, count := 0 }

/-- The entry at window position i, i.e. array slot
(tail + i) % EVENT_BUFFER_SIZE as in the C iteration schemes. -/
def entryAt (buf : event_ring_buffer_t) (i : Nat) : buffered_event_t :=
  buf.events.getD ((buf.tail + i) % EVENT_BUFFER_SIZE) default

/-- The live buffer contents in FIFO order, oldest (tail) first. -/
def toList (buf : event_ring_buffer_t) : List buffered_event_t :=
  (List.range buf.count).map (entryAt buf)

/-- Structural invariant of the ring buffer. -/
def BufferWF (buf : event_ring_buffer_t) : Prop :=
  buf.head < EVENT_BUFFER_SIZE ∧ buf.tail < EVENT_BUFFER_SIZE ∧
  buf.count ≤ EVENT_BUFFER_SIZE ∧
  buf.head = (buf.tail + buf.count) % EVENT_BUFFER_SIZE ∧
  buf.events.length = EVENT_BUFFER_SIZE

instance (buf : event_ring_buffer_t) : Decidable (BufferWF buf) := by
  unfold BufferWF
  exact inferInstance

/-- buffer_event from comm_task.c: when the buffer is full, advance tail
and decrement count (evicting the oldest entry, with a logged warning
reported as the Bool result), then write the new entry at head, advance
head and increment count. -/
def buffer_event (buf : event_ring_buffer_t) (e : event_t) (msg_id : Int)
    (pending : Bool) (now : Nat) : event_ring_buffer_t × Bool :=
  let buf1 :=
    if EVENT_BUFFER_SIZE ≤ buf.count then
      { buf with tail := (buf.tail + 1) % EVENT_BUFFER_SIZE, count := buf.count - 1 }
    else buf
  ({ buf1 with
      events := buf1.events.set buf1.head
        { event := e, msg_id := msg_id, pending := pending, timestamp := now },
      head := (buf1.head + 1) % EVENT_BUFFER_SIZE,
      count := buf1.count + 1 },
    decide (EVENT_BUFFER_SIZE ≤ buf.count))

/-- mark_event_pending from comm_task.c (index is a raw array slot; a set
at an out-of-range index leaves the list unchanged). -/
def mark_event_pending (buf : event_ring_buffer_t) (index : Nat) (msg_id : Int)
    (now : Nat) : event_ring_buffer_t :=
  { buf with
    events := buf.events.set index
      { buf.events.getD index default with
        msg_id := msg_id, pending := true, timestamp := now } }

/-- The acknowledgment match condition of mark_event_delivered:
matching msg_id and still pending. -/
def matchesDelivery (b : buffered_event_t) (msg_id : Int) : Bool :=
  b.msg_id == msg_id && b.pending

/-- The search loop of mark_event_delivered: scan window positions
i, i+1, ... for fuel steps, returning the first position whose entry
acknowledges msg_id. -/
def findPendingGo (buf : event_ring_buffer_t) (msg_id : Int) : Nat → Nat → Option Nat
  | _, 0 => none
  | i, fuel + 1 =>
      if matchesDelivery (entryAt buf i) msg_id then some i
      else findPendingGo buf msg_id (i + 1) fuel

/-- First window position (if any) whose entry acknowledges msg_id. -/
def findPendingIdx (buf : event_ring_buffer_t) (msg_id : Int) : Option Nat :=
  findPendingGo buf msg_id 0 buf.count

/-- The middle-removal shift loop of mark_event_delivered: for j from i
down to 1, copy array slot (tail + j - 1) % EVENT_BUFFER_SIZE into slot
(tail + j) % EVENT_BUFFER_SIZE. -/
def shiftLoop (events : List buffered_event_t) (tail : Nat) : Nat → List buffered_event_t
  | 0 => events
  | j + 1 =>
      shiftLoop
        (events.set ((tail + j + 1) % EVENT_BUFFER_SIZE)
          (events.getD ((tail + j) % EVENT_BUFFER_SIZE) default)) tail j

/-- Removal step of mark_event_delivered once the match is found at
window position i: advance tail when at the tail, retreat head when at
the head, otherwise shift the tail side forward and advance tail. -/
def removeAt (buf : event_ring_buffer_t) (i : Nat) : event_ring_buffer_t :=
  if i = 0 then
    { buf with tail := (buf.tail + 1) % EVENT_BUFFER_SIZE, count := buf.count - 1 }
  else if i = buf.count - 1 then
    { buf with
      head := (buf.head + EVENT_BUFFER_SIZE - 1) % EVENT_BUFFER_SIZE,
      count := buf.count - 1 }
  else
    { buf with
      events := shiftLoop buf.events buf.tail i,
      tail := (buf.tail + 1) % EVENT_BUFFER_SIZE,
      count := buf.count - 1 }

/-- mark_event_delivered from comm_task.c. -/
def mark_event_delivered (buf : event_ring_buffer_t) (msg_id : Int) :
    event_ring_buffer_t :=
  match findPendingIdx buf msg_id with
  | none => buf
  | some i => removeAt buf i

/-- The wrap-safe elapsed-tick computation current_ticks - timestamp on
uint32_t TickType_t values. -/
def tickDiff (now ts : Nat) : Nat :=
  (now % UINT32_MOD + UINT32_MOD - ts % UINT32_MOD) % UINT32_MOD

/-- Per-entry action of check_pending_timeouts: a pending entry past the
deadline is republished with the fresh publish id and the current tick
when connected and the publish succeeds, marked not pending when the
publish fails, and marked not pending when disconnected.  The
release/reacquire of the mutex around the publish revalidates that the
entry is unchanged, which always holds sequentially. -/
def sweepEntry (e : buffered_event_t) (now : Nat) (connected : Bool)
    (newId : Int) : buffered_event_t :=
  if e.pending = true ∧ timeout_ticks ≤ tickDiff now e.timestamp then
    if connected = true then
      if 0 ≤ newId then { e with msg_id := newId, timestamp := now }
      else { e with pending := false }
    else { e with pending := false }
  else e

/-- The sweep loop of check_pending_timeouts over window positions
i, i+1, ... for fuel steps (tail and count never change during the
sweep). -/
def sweepGo (now : Nat) (connected : Bool) (newIds : Nat → Int) :
    event_ring_buffer_t → Nat → Nat → event_ring_buffer_t
  | buf, _, 0 => buf
  | buf, i, fuel + 1 =>
      sweepGo now connected newIds
        { buf with
          events := buf.events.set ((buf.tail + i) % EVENT_BUFFER_SIZE)
            (sweepEntry (buf.events.getD ((buf.tail + i) % EVENT_BUFFER_SIZE) default)
              now connected (newIds i)) }
        (i + 1) fuel

/-- check_pending_timeouts from comm_task.c; newIds i is the msg_id that
esp_mqtt_client_publish returns for the republish attempted at window
position i (negative on failure). -/
def check_pending_timeouts (buf : event_ring_buffer_t) (now : Nat)
    (connected : Bool) (newIds : Nat → Int) : event_ring_buffer_t :=
  sweepGo now connected newIds buf 0 buf.count

/-- publish_telemetry from comm_task.c: buffer first with msg_id -1 and
pending false; when connected and the publish succeeds (pubId
nonnegative), mark the just-buffered entry pending with the publish id —
recording, as the C line does, xTaskGetTickCount() * portTICK_PERIOD_MS
as its timestamp.  json_ok models the event_to_json length check. -/
def publish_telemetry (buf : event_ring_buffer_t) (e : event_t) (now : Nat)
    (connected : Bool) (pubId : Int) (json_ok : Bool) : event_ring_buffer_t :=
  if json_ok = false then buf
  else
    let buf1 := (buffer_event buf e (-1) false now).1
    if connected = true then
      if 0 ≤ pubId then
        { buf1 with
          events := buf1.events.set
            ((buf1.head + EVENT_BUFFER_SIZE - 1) % EVENT_BUFFER_SIZE)
            { buf1.events.getD ((buf1.head + EVENT_BUFFER_SIZE - 1) % EVENT_BUFFER_SIZE)
                default with
              msg_id := pubId, pending := true,
              timestamp := now * portTICK_PERIOD_MS } }
      else buf1
    else buf1

/-- The mutating ring-buffer operations of comm_task.c. -/
inductive buffer_op where
  | insert (e : event_t) (msg_id : Int) (pending : Bool) (now : Nat)
  | markPending (index : Nat) (msg_id : Int) (now : Nat)
  | deliver (msg_id : Int)
  | sweep (now : Nat) (connected : Bool) (newIds : Nat → Int)

/-- Apply one ring-buffer operation. -/
def apply_op (buf : event_ring_buffer_t) : buffer_op → event_ring_buffer_t
  | .insert e m p n => (buffer_event buf e m p n).1
  | .markPending i m n => mark_event_pending buf i m n
  | .deliver m => mark_event_delivered buf m
  | .sweep n c ids => check_pending_timeouts buf n c ids

/-- Run a sequence of ring-buffer operations from the initial buffer. -/
def run_ops (ops : List buffer_op) : event_ring_buffer_t :=
  ops.foldl apply_op empty_buffer

/-- Arguments of one buffer_event call. -/
structure insert_call where
  e : event_t
  msg_id : Int
  pending : Bool
  now : Nat

/-- The buffered entry an insert call produces. -/
def mkEntry (x : insert_call) : buffered_event_t :=
  { event := x.e, msg_id := x.msg_id, pending := x.pending, timestamp := x.now }

/-- Run a list of buffer_event calls, counting the buffer-full warnings
(one per eviction). -/
def run_inserts (p : event_ring_buffer_t × Nat) (xs : List insert_call) :
    event_ring_buffer_t × Nat :=
  xs.foldl
    (fun q x =>
      ((buffer_event q.1 x.e x.msg_id x.pending x.now).1,
        q.2 + if (buffer_event q.1 x.e x.msg_id x.pending x.now).2 then 1 else 0))
    p

/-- Modelled from the spec (section 4.4 step 3), head-side variant of the
shift: for j from i up to count - 2, copy array slot
(tail + j + 1) % EVENT_BUFFER_SIZE into slot (tail + j) % EVENT_BUFFER_SIZE
(steps counts the remaining copies). -/
def shiftBackLoop (tail : Nat) : List buffered_event_t → Nat → Nat → List buffered_event_t
  | events, _, 0 => events
  | events, j, steps + 1 =>
      shiftBackLoop tail
        (events.set ((tail + j) % EVENT_BUFFER_SIZE)
          (events.getD ((tail + j + 1) % EVENT_BUFFER_SIZE) default)) (j + 1) steps

/-- Modelled from the spec (section 4.4 step 3): removal that shifts the
shorter side to close the gap — when the removed position is at neither
end, shift the tail side and advance tail only when that side is not
longer, otherwise shift the head side and retreat head. -/
def removeShorterSide (buf : event_ring_buffer_t) (i : Nat) : event_ring_buffer_t :=
  if i = 0 then
    { buf with tail := (buf.tail + 1) % EVENT_BUFFER_SIZE, count := buf.count - 1 }
  else if i = buf.count - 1 then
    { buf with
      head := (buf.head + EVENT_BUFFER_SIZE - 1) % EVENT_BUFFER_SIZE,
      count := buf.count - 1 }
  else if i ≤ buf.count - 1 - i then
    { buf with
      events := shiftLoop buf.events buf.tail i,
      tail := (buf.tail + 1) % EVENT_BUFFER_SIZE,
      count := buf.count - 1 }
  else
    { buf with
      events := shiftBackLoop buf.tail buf.events i (buf.count - 1 - i),
      head := (buf.head + EVENT_BUFFER_SIZE - 1) % EVENT_BUFFER_SIZE,
      count := buf.count - 1 }

/-- A concrete well-formed buffer with four pending entries (msg_ids 10,
11, 12, 13) at slots 0..3, used to exercise mark_event_delivered. -/
def shorter_side_demo_buffer : event_ring_buffer_t :=
  { events :=
      [{ event := default, msg_id := 10, pending := true, timestamp := 0 },
       { event := default, msg_id := 11, pending := true, timestamp := 0 },
       { event := default, msg_id := 12, pending := true, timestamp := 0 },
       { event := default, msg_id := 13, pending := true, timestamp := 0 },
       default, default, default, default, default, default],
    head := 4, tail := 0, count := 4 }

/-- A concrete well-formed buffer holding one pending entry published at
tick 0, used to exercise the timeout sweep. -/
def timeout_demo_buffer : event_ring_buffer_t :=
  { events :=
      [{ event := default, msg_id := 3, pending := true, timestamp := 0 },
       default, default, default, default, default, default, default, default, default],
    head := 1, tail := 0, count := 1 }

/-! Theorems about the state machine. -/

/-- Single step of the coupling between the machine counter and the spec
counter of wrong attempts while Locked since the last reset. -/
theorem wrongSinceResetStep_aux (s : safe_state_machine_t) (n : Nat) (e : safe_event_t)
    (hn : s.wrong_count = n)
    (hlt : s.current_state = .STATE_LOCKED → n < MAX_WRONG_ATTEMPTS) :
    (state_machine_process_event s e).wrong_count = (wrongSinceResetStep (s, n) e).2 ∧
    ((state_machine_process_event s e).current_state = .STATE_LOCKED →
      (wrongSinceResetStep (s, n) e).2 < MAX_WRONG_ATTEMPTS) := by
  obtain ⟨cs, w⟩ := s
  simp only at hn
  subst hn
  cases cs with
  | STATE_LOCKED =>
      cases e with
      | EVENT_CORRECT_PIN =>
          simp [state_machine_process_event, wrongSinceResetStep, set_unlocked]
      | EVENT_WRONG_PIN =>
          have h3 : w < MAX_WRONG_ATTEMPTS := hlt rfl
          have hmod : (w + 1) % 256 = w + 1 := by
            have : w < 3 := h3
            omega
          simp only [state_machine_process_event, wrongSinceResetStep, set_alarm, hmod]
          by_cases hc : MAX_WRONG_ATTEMPTS ≤ w + 1
          · simp [hc]
          · simp [hc]
            omega
      | EVENT_MOVEMENT =>
          simp [state_machine_process_event, wrongSinceResetStep, set_alarm]
  | STATE_UNLOCKED =>
      cases e with
      | EVENT_CORRECT_PIN =>
          simp [state_machine_process_event, wrongSinceResetStep, set_locked, MAX_WRONG_ATTEMPTS]
      | EVENT_WRONG_PIN =>
          simp [state_machine_process_event, wrongSinceResetStep]
      | EVENT_MOVEMENT =>
          simp [state_machine_process_event, wrongSinceResetStep]
  | STATE_ALARM =>
      cases e with
      | EVENT_CORRECT_PIN =>
          simp [state_machine_process_event, wrongSinceResetStep, set_locked, MAX_WRONG_ATTEMPTS]
      | EVENT_WRONG_PIN =>
          simp [state_machine_process_event, wrongSinceResetStep]
      | EVENT_MOVEMENT =>
          simp [state_machine_process_event, wrongSinceResetStep]

/-- Invariant tying the machine counter to the spec counter along any
trace starting from a coupled pair. -/
theorem wrong_count_tracks_spec (es : List safe_event_t) :
    ∀ (s : safe_state_machine_t) (n : Nat),
      s.wrong_count = n →
      (s.current_state = .STATE_LOCKED → n < MAX_WRONG_ATTEMPTS) →
      (es.foldl wrongSinceResetStep (s, n)).1 = es.foldl state_machine_process_event s ∧
      (es.foldl wrongSinceResetStep (s, n)).1.wrong_count =
        (es.foldl wrongSinceResetStep (s, n)).2 ∧
      ((es.foldl wrongSinceResetStep (s, n)).1.current_state = .STATE_LOCKED →
        (es.foldl wrongSinceResetStep (s, n)).2 < MAX_WRONG_ATTEMPTS) := by
  induction es with
  | nil =>
      intro s n hn hlt
      exact ⟨rfl, hn, hlt⟩
  | cons e es ih =>
      intro s n hn hlt
      have hstep := wrongSinceResetStep_aux s n e hn hlt
      have hfst : (wrongSinceResetStep (s, n) e).1 = state_machine_process_event s e := rfl
      have hrec := ih (state_machine_process_event s e) (wrongSinceResetStep (s, n) e).2
        hstep.1 hstep.2
      simp only [List.foldl_cons]
      rw [show wrongSinceResetStep (s, n) e =
          (state_machine_process_event s e, (wrongSinceResetStep (s, n) e).2) from
        Prod.ext hfst rfl]
      exact hrec

/-- C1: along every event trace from the initial state (Locked, count 0),
while the machine is Locked its wrong_count equals the cumulative number
of wrong attempts made while Locked since the last reset, and one more
wrong PIN entry drives the machine into Alarm exactly when that
cumulative count reaches the threshold MAX_WRONG_ATTEMPTS = 3. -/
theorem alarm_iff_wrong_attempts_reach_threshold (es : List safe_event_t)
    (h : (runSM es).current_state = .STATE_LOCKED) :
    (runSM es).wrong_count = wrongSinceReset es ∧
    ((runSM (es ++ [.EVENT_WRONG_PIN])).current_state = .STATE_ALARM ↔
      MAX_WRONG_ATTEMPTS ≤ wrongSinceReset (es ++ [.EVENT_WRONG_PIN])) := by
  obtain ⟨h1, h2, h3⟩ :=
    wrong_count_tracks_spec es state_machine_init 0 rfl (fun _ => by decide)
  have hrun : (es.foldl wrongSinceResetStep (state_machine_init, 0)).1 = runSM es := h1
  have hL : (es.foldl wrongSinceResetStep (state_machine_init, 0)).1.current_state =
      .STATE_LOCKED := by rw [hrun]; exact h
  have hlt : (es.foldl wrongSinceResetStep (state_machine_init, 0)).2 <
      MAX_WRONG_ATTEMPTS := h3 hL
  constructor
  · show (runSM es).wrong_count = (es.foldl wrongSinceResetStep (state_machine_init, 0)).2
    rw [← hrun]; exact h2
  · have happ : wrongSinceReset (es ++ [.EVENT_WRONG_PIN]) =
        (es.foldl wrongSinceResetStep (state_machine_init, 0)).2 + 1 := by
      show (List.foldl wrongSinceResetStep (state_machine_init, 0)
          (es ++ [.EVENT_WRONG_PIN])).2 = _
      rw [List.foldl_append]
      simp [wrongSinceResetStep, hL]
    have hrunapp : runSM (es ++ [.EVENT_WRONG_PIN]) =
        state_machine_process_event (runSM es) .EVENT_WRONG_PIN := by
      show List.foldl state_machine_process_event state_machine_init
          (es ++ [.EVENT_WRONG_PIN]) = _
      rw [List.foldl_append]
      rfl
    rw [happ, hrunapp]
    have hcount : (runSM es).wrong_count =
        (es.foldl wrongSinceResetStep (state_machine_init, 0)).2 := by
      rw [← hrun]; exact h2
    have hmod : ((runSM es).wrong_count + 1) % 256 = (runSM es).wrong_count + 1 := by
      rw [hcount]
      have : (es.foldl wrongSinceResetStep (state_machine_init, 0)).2 < 3 := hlt
      omega
    rcases hq : runSM es with ⟨cs, w⟩
    have hcs : cs = .STATE_LOCKED := by rw [hq] at h; exact h
    have hw : w = (es.foldl wrongSinceResetStep (state_machine_init, 0)).2 := by
      rw [hq] at hcount; exact hcount
    rw [hq] at hmod
    simp only at hmod
    subst hcs
    subst hw
    by_cases hc : MAX_WRONG_ATTEMPTS ≤
        (es.foldl wrongSinceResetStep (state_machine_init, 0)).2 + 1
    · simp [state_machine_process_event, set_alarm, hmod, hc]
    · simp [state_machine_process_event, set_alarm, hmod, hc]

/-- Witness for C1 at the concrete trace of two wrong PIN entries: the
third wrong attempt enters Alarm exactly as the counter reaches 3. -/
theorem alarm_iff_wrong_attempts_reach_threshold_witness :
    (runSM [.EVENT_WRONG_PIN, .EVENT_WRONG_PIN]).wrong_count =
      wrongSinceReset [.EVENT_WRONG_PIN, .EVENT_WRONG_PIN] ∧
    ((runSM ([.EVENT_WRONG_PIN, .EVENT_WRONG_PIN] ++ [.EVENT_WRONG_PIN])).current_state =
        .STATE_ALARM ↔
      MAX_WRONG_ATTEMPTS ≤
        wrongSinceReset ([.EVENT_WRONG_PIN, .EVENT_WRONG_PIN] ++ [.EVENT_WRONG_PIN])) :=
  alarm_iff_wrong_attempts_reach_threshold [.EVENT_WRONG_PIN, .EVENT_WRONG_PIN] (by decide)

/-- C4: state_machine_process_event implements the section 4.2 transition
table exactly, for every machine configuration and every event. -/
theorem state_machine_matches_transition_table (sm : safe_state_machine_t)
    (e : safe_event_t) :
    state_machine_process_event sm e = spec_transition_table sm e := by
  obtain ⟨cs, w⟩ := sm
  cases cs <;> cases e <;>
    simp [state_machine_process_event, spec_transition_table,
      set_locked, set_unlocked, set_alarm]

/-! Theorems about the pin manager. -/

/-- Bitwise or of naturals is zero exactly when both operands are. -/
theorem nat_or_eq_zero_iff (a b : Nat) : a ||| b = 0 ↔ a = 0 ∧ b = 0 := by
  constructor
  · intro h
    constructor
    · apply Nat.zero_of_testBit_eq_false
      intro i
      have hbit := congrArg (fun x => Nat.testBit x i) h
      simp [Nat.testBit_lor] at hbit
      exact hbit.1
    · apply Nat.zero_of_testBit_eq_false
      intro i
      have hbit := congrArg (fun x => Nat.testBit x i) h
      simp [Nat.testBit_lor] at hbit
      exact hbit.2
  · rintro ⟨rfl, rfl⟩
    rfl

/-- A validated PIN has exactly PIN_LENGTH characters. -/
theorem pin_manager_validate_length (pin : List Char)
    (h : pin_manager_validate pin = true) : pin.length = PIN_LENGTH := by
  by_cases hl : pin.length = PIN_LENGTH
  · exact hl
  · simp [pin_manager_validate, hl] at h

/-- The diff accumulator of constant_time_strcmp_go factors out as a
bitwise or. -/
theorem constant_time_strcmp_go_lor (a : List Nat) :
    ∀ (b : List Nat) (diff : Nat),
      constant_time_strcmp_go diff a b = diff ||| constant_time_strcmp_go 0 a b := by
  induction a with
  | nil =>
      intro b diff
      cases b <;> simp [constant_time_strcmp_go]
  | cons x xs ih =>
      intro b diff
      cases b with
      | nil => simp [constant_time_strcmp_go]
      | cons y ys =>
          by_cases hc : x ≠ 0 ∧ y ≠ 0
          · simp only [constant_time_strcmp_go, if_pos hc]
            rw [ih ys (diff ||| (x ^^^ y)), ih ys (0 ||| (x ^^^ y)),
              Nat.zero_or, Nat.lor_assoc]
          · simp only [constant_time_strcmp_go, if_neg hc]
            rw [Nat.zero_or]

/-- constant_time_strcmp returns 0 exactly on equal strings, for strings
whose bytes are all nonzero (C strings contain no interior NUL). -/
theorem constant_time_strcmp_eq_zero_iff (a : List Nat) :
    ∀ b : List Nat, (∀ x ∈ a, x ≠ 0) → (∀ x ∈ b, x ≠ 0) →
      (constant_time_strcmp a b = 0 ↔ a = b) := by
  induction a with
  | nil =>
      intro b _ hb
      cases b with
      | nil => simp [constant_time_strcmp, constant_time_strcmp_go]
      | cons y ys =>
          have hy : y ≠ 0 := hb y (by simp)
          simp [constant_time_strcmp, constant_time_strcmp_go, hy]
  | cons x xs ih =>
      intro b ha hb
      have hx : x ≠ 0 := ha x (by simp)
      cases b with
      | nil =>
          simp [constant_time_strcmp, constant_time_strcmp_go, hx]
      | cons y ys =>
          have hy : y ≠ 0 := hb y (by simp)
          have hrec := ih ys (fun z hz => ha z (by simp [hz]))
            (fun z hz => hb z (by simp [hz]))
          show constant_time_strcmp_go 0 (x :: xs) (y :: ys) = 0 ↔ _
          rw [show constant_time_strcmp_go 0 (x :: xs) (y :: ys) =
              constant_time_strcmp_go (0 ||| (x ^^^ y)) xs ys from
            by simp [constant_time_strcmp_go, hx, hy]]
          rw [constant_time_strcmp_go_lor, Nat.zero_or, nat_or_eq_zero_iff,
            Nat.xor_eq_zero]
          simp only [List.cons.injEq]
          constructor
          · rintro ⟨h1, h2⟩
            exact ⟨h1, hrec.mp h2⟩
          · rintro ⟨h1, h2⟩
            exact ⟨h1, hrec.mpr h2⟩

/-- The number of XOR-accumulate steps of constant_time_strcmp is the
length of the shorter operand plus one, for NUL-free strings. -/
theorem constant_time_strcmp_iterations_eq (a : List Nat) :
    ∀ b : List Nat, (∀ x ∈ a, x ≠ 0) → (∀ x ∈ b, x ≠ 0) →
      constant_time_strcmp_iterations a b = min a.length b.length + 1 := by
  induction a with
  | nil =>
      intro b _ _
      simp [constant_time_strcmp_iterations]
  | cons x xs ih =>
      intro b ha hb
      have hx : x ≠ 0 := ha x (by simp)
      cases b with
      | nil => simp [constant_time_strcmp_iterations]
      | cons y ys =>
          have hy : y ≠ 0 := hb y (by simp)
          have hrec := ih ys (fun z hz => ha z (by simp [hz]))
            (fun z hz => hb z (by simp [hz]))
          simp only [constant_time_strcmp_iterations, if_pos (And.intro hx hy), hrec,
            List.length_cons]
          omega

/-- C5: pin_manager_set validates, then persists, then updates the
in-memory PIN.  On validation or persistence failure it returns false
and leaves both the in-memory and the persisted PIN unchanged; on
success it writes the same value to both; hence if the in-memory and
persisted PINs agree before the call they agree after it. -/
theorem pin_manager_set_atomicity (ram nvs new_pin : List Char) (nvs_ok : Bool) :
    ((pin_manager_validate new_pin = false ∨ nvs_ok = false) →
      pin_manager_set ram nvs new_pin nvs_ok = (false, ram, nvs)) ∧
    ((pin_manager_set ram nvs new_pin nvs_ok).1 = false →
      (pin_manager_set ram nvs new_pin nvs_ok).2.1 = ram ∧
      (pin_manager_set ram nvs new_pin nvs_ok).2.2 = nvs) ∧
    (pin_manager_validate new_pin = true → nvs_ok = true →
      pin_manager_set ram nvs new_pin nvs_ok = (true, new_pin, new_pin)) ∧
    (ram = nvs →
      (pin_manager_set ram nvs new_pin nvs_ok).2.1 =
        (pin_manager_set ram nvs new_pin nvs_ok).2.2) := by
  by_cases hv : pin_manager_validate new_pin = true
  · by_cases hk : nvs_ok = true
    · have htake : new_pin.take (MAX_PIN_LENGTH - 1) = new_pin := by
        apply List.take_of_length_le
        rw [pin_manager_validate_length new_pin hv]
        decide
      refine ⟨?_, ?_, ?_, ?_⟩ <;>
        simp [pin_manager_set, hv, hk, htake]
    · have hk' : nvs_ok = false := by
        cases nvs_ok
        · rfl
        · exact absurd rfl hk
      refine ⟨?_, ?_, ?_, ?_⟩ <;>
        simp [pin_manager_set, hv, hk']
  · have hv' : pin_manager_validate new_pin = false := by
      cases h : pin_manager_validate new_pin
      · rfl
      · exact absurd h hv
    refine ⟨?_, ?_, ?_, ?_⟩ <;>
      simp [pin_manager_set, hv']

/-- Witness for C5: setting a valid new PIN while persistence fails
returns false and leaves both copies of the old PIN in place. -/
theorem pin_manager_set_atomicity_witness :
    pin_manager_set ['1', '1', '1', '1'] ['1', '1', '1', '1']
      ['2', '2', '2', '2'] false =
      (false, ['1', '1', '1', '1'], ['1', '1', '1', '1']) :=
  (pin_manager_set_atomicity ['1', '1', '1', '1'] ['1', '1', '1', '1']
    ['2', '2', '2', '2'] false).1 (Or.inr rfl)

/-- C6 counterexample: the claim says the comparison XOR-accumulates over
both operands' full length.  For a one-byte string against a five-byte
string the code performs only 2 XOR-accumulate steps — one
loop iteration plus the final terminator accumulation — strictly fewer
than the longer operand's length 5, so it does not accumulate over both
operands' full length when the lengths differ. -/
theorem constant_time_strcmp_iterations_counterexample :
    constant_time_strcmp_iterations [49] [49, 50, 51, 52, 53] = 2 ∧
    ([49] : List Nat).length = 1 ∧
    ([49, 50, 51, 52, 53] : List Nat).length = 5 ∧
    constant_time_strcmp_iterations [49] [49, 50, 51, 52, 53] <
      ([49, 50, 51, 52, 53] : List Nat).length := by
  refine ⟨?_, rfl, rfl, ?_⟩ <;> decide

/-- C6 (amended): for NUL-free operands, constant_time_strcmp performs
exactly min(len a, len b) + 1 XOR-accumulate steps — a function of the
two operand lengths alone, never of where the first mismatch occurs, so
it never exits early at a mismatching character — and it returns 0
exactly when the two strings are equal; pin_manager_verify therefore
accepts exactly the stored PIN. -/
theorem constant_time_strcmp_timing_and_correctness (a b : List Nat)
    (ha : ∀ x ∈ a, x ≠ 0) (hb : ∀ x ∈ b, x ≠ 0) :
    constant_time_strcmp_iterations a b = min a.length b.length + 1 ∧
    (∀ a2 b2 : List Nat, (∀ x ∈ a2, x ≠ 0) → (∀ x ∈ b2, x ≠ 0) →
      a2.length = a.length → b2.length = b.length →
      constant_time_strcmp_iterations a2 b2 = constant_time_strcmp_iterations a b) ∧
    (constant_time_strcmp a b = 0 ↔ a = b) ∧
    (∀ e s : List Char, (∀ c ∈ e, c.toNat ≠ 0) → (∀ c ∈ s, c.toNat ≠ 0) →
      (pin_manager_verify e s = true ↔ e = s)) := by
  refine ⟨constant_time_strcmp_iterations_eq a b ha hb, ?_, ?_, ?_⟩
  · intro a2 b2 ha2 hb2 hla hlb
    rw [constant_time_strcmp_iterations_eq a b ha hb,
      constant_time_strcmp_iterations_eq a2 b2 ha2 hb2, hla, hlb]
  · exact constant_time_strcmp_eq_zero_iff a b ha hb
  · intro e s he hs
    have hinj : Function.Injective Char.toNat := fun c d h => by
      have hof := congrArg Char.ofNat h
      simpa [Char.ofNat_toNat] using hof
    have hmape : ∀ x ∈ e.map Char.toNat, x ≠ 0 := by
      intro x hx
      obtain ⟨c, hc, rfl⟩ := List.mem_map.mp hx
      exact he c hc
    have hmaps : ∀ x ∈ s.map Char.toNat, x ≠ 0 := by
      intro x hx
      obtain ⟨c, hc, rfl⟩ := List.mem_map.mp hx
      exact hs c hc
    rw [pin_manager_verify, decide_eq_true_iff,
      constant_time_strcmp_eq_zero_iff (e.map Char.toNat) (s.map Char.toNat) hmape hmaps]
    constructor
    · exact fun hh => List.map_injective_iff.mpr hinj hh
    · intro hh
      rw [hh]

/-- Witness for C6 at two four-byte strings differing in the last byte: five
XOR-accumulate steps, and the comparison reports the strings unequal. -/
theorem constant_time_strcmp_timing_and_correctness_witness :
    constant_time_strcmp_iterations [49, 50, 51, 52] [49, 50, 51, 53] =
      min ([49, 50, 51, 52] : List Nat).length ([49, 50, 51, 53] : List Nat).length + 1 ∧
    (constant_time_strcmp [49, 50, 51, 52] [49, 50, 51, 53] = 0 ↔
      ([49, 50, 51, 52] : List Nat) = [49, 50, 51, 53]) :=
  ⟨(constant_time_strcmp_timing_and_correctness [49, 50, 51, 52] [49, 50, 51, 53]
      (by decide) (by decide)).1,
   (constant_time_strcmp_timing_and_correctness [49, 50, 51, 52] [49, 50, 51, 53]
      (by decide) (by decide)).2.2.1⟩

/-! Theorems about the JSON protocol. -/

/-- C3 (code bug): evaluation of json_to_command and event_to_json on the
section-6 wire examples.  The lock, unlock and set_code commands decode,
and a payload without a command field is rejected, as the claim states;
but the documented reset_alarm command is rejected as unknown, a
set_code command with a 5-digit code and one with non-digit characters
are both accepted (the 4-digit all-digit validation is deferred to
pin_manager_set), and movement telemetry is encoded with a vibration
field instead of the documented movement_amount field. -/
theorem json_protocol_wire_examples_eval :
    json_to_command (.obj [("command", .str ("lock"))]) =
      some { type := .CMD_LOCK, code := [] } ∧
    json_to_command (.obj [("command", .str ("unlock"))]) =
      some { type := .CMD_UNLOCK, code := [] } ∧
    json_to_command (.obj [("command", .str ("set_code")), ("code", .str ("1234"))]) =
      some { type := .CMD_SET_CODE, code := ['1', '2', '3', '4'] } ∧
    json_to_command (.obj [("command", .str ("reset_alarm"))]) = none ∧
    json_to_command (.obj [("ts", .num 1234567890)]) = none ∧
    json_to_command (.obj [("command", .str ("set_code")), ("code", .str ("12345"))]) =
      some { type := .CMD_SET_CODE, code := ['1', '2', '3', '4', '5'] } ∧
    json_to_command (.obj [("command", .str ("set_code")), ("code", .str ("abcd"))]) =
      some { type := .CMD_SET_CODE, code := ['a', 'b', 'c', 'd'] } ∧
    event_to_json
      { type := .EVT_STATE_CHANGE, timestamp := 1234567890,
        state := .STATE_UNLOCKED, movement_amount := 0, code_ok := false,
        vibration := false } =
      .obj [("ts", .num 1234567890), ("state", .str ("unlocked")),
        ("event", .str ("state_change"))] ∧
    event_to_json
      { type := .EVT_CODE_RESULT, timestamp := 1234567890,
        state := .STATE_LOCKED, movement_amount := 0, code_ok := true,
        vibration := false } =
      .obj [("ts", .num 1234567890), ("state", .str ("locked")),
        ("event", .str ("code_entry")), ("code_ok", .bool true)] ∧
    "movement_amount" ∉ jsonKeys (event_to_json
      { type := .EVT_MOVEMENT,
        timestamp := 1234567890, state := .STATE_ALARM, movement_amount := 45,
        code_ok := false, vibration := true }) ∧
    "vibration" ∈ jsonKeys (event_to_json
      { type := .EVT_MOVEMENT,
        timestamp := 1234567890, state := .STATE_ALARM, movement_amount := 45,
        code_ok := false, vibration := true }) := by
  refine ⟨rfl, rfl, rfl, rfl, rfl, rfl, rfl, rfl, rfl, ?_, ?_⟩
  · simp [event_to_json, jsonKeys, state_to_string]
  · simp [event_to_json, jsonKeys, state_to_string]

/-! Theorems about the telemetry ring buffer. -/

/-- Reading a slot just written yields the written entry. -/
theorem getD_set_self {α : Type} (l : List α) (i : Nat) (a d : α) (h : i < l.length) :
    (l.set i a).getD i d = a := by
  rw [List.getD_eq_getElem?_getD]
  have hs : (l.set i a)[i]? = some a := by
    rw [List.getElem?_set_self', List.getElem?_eq_getElem h]
    rfl
  rw [hs]
  rfl

/-- Writing one slot leaves every other slot unchanged. -/
theorem getD_set_ne {α : Type} (l : List α) (i j : Nat) (a d : α) (h : i ≠ j) :
    (l.set i a).getD j d = l.getD j d := by
  rw [List.getD_eq_getElem?_getD, List.getD_eq_getElem?_getD, List.getElem?_set_ne h]

/-- The shift loop does not change the array length. -/
theorem shiftLoop_length (tail : Nat) :
    ∀ (j : Nat) (events : List buffered_event_t),
      (shiftLoop events tail j).length = events.length := by
  intro j
  induction j with
  | zero => intro ev; rfl
  | succ j ih =>
      intro ev
      rw [shiftLoop, ih]
      simp

/-- The sweep loop never changes head, tail, count or the array
length. -/
theorem sweepGo_meta (now : Nat) (c : Bool) (ids : Nat → Int) :
    ∀ (fuel : Nat) (buf : event_ring_buffer_t) (i : Nat),
      (sweepGo now c ids buf i fuel).head = buf.head ∧
      (sweepGo now c ids buf i fuel).tail = buf.tail ∧
      (sweepGo now c ids buf i fuel).count = buf.count ∧
      (sweepGo now c ids buf i fuel).events.length = buf.events.length := by
  intro fuel
  induction fuel with
  | zero => intro buf i; exact ⟨rfl, rfl, rfl, rfl⟩
  | succ fuel ih =>
      intro buf i
      rw [sweepGo]
      obtain ⟨h1, h2, h3, h4⟩ := ih _ (i + 1)
      refine ⟨h1, h2, h3, ?_⟩
      rw [h4]
      simp

/-- The search loop only reports positions inside the scanned range. -/
theorem findPendingGo_some_lt (buf : event_ring_buffer_t) (id : Int) :
    ∀ (fuel i k : Nat), findPendingGo buf id i fuel = some k → i ≤ k ∧ k < i + fuel := by
  intro fuel
  induction fuel with
  | zero => intro i k h; simp [findPendingGo] at h
  | succ fuel ih =>
      intro i k h
      rw [findPendingGo] at h
      by_cases hm : matchesDelivery (entryAt buf i) id
      · rw [if_pos hm] at h
        have : i = k := by injection h
        omega
      · rw [if_neg hm] at h
        have := ih (i + 1) k h
        omega

/-- If no scanned entry acknowledges the id, the search loop fails. -/
theorem findPendingGo_none (buf : event_ring_buffer_t) (id : Int) :
    ∀ (fuel i : Nat),
      (∀ k, i ≤ k → k < i + fuel → matchesDelivery (entryAt buf k) id = false) →
      findPendingGo buf id i fuel = none := by
  intro fuel
  induction fuel with
  | zero => intro i _; rfl
  | succ fuel ih =>
      intro i h
      rw [findPendingGo]
      have hi : matchesDelivery (entryAt buf i) id = false := h i (by omega) (by omega)
      rw [if_neg (by simp [hi])]
      exact ih (i + 1) (fun k hk1 hk2 => h k (by omega) (by omega))

/-- The search loop returns the first acknowledging position. -/
theorem findPendingGo_first (buf : event_ring_buffer_t) (id : Int) :
    ∀ (fuel i k : Nat), i ≤ k → k < i + fuel →
      matchesDelivery (entryAt buf k) id = true →
      (∀ j, i ≤ j → j < k → matchesDelivery (entryAt buf j) id = false) →
      findPendingGo buf id i fuel = some k := by
  intro fuel
  induction fuel with
  | zero => intro i k h1 h2 _ _; omega
  | succ fuel ih =>
      intro i k h1 h2 hk hfirst
      rw [findPendingGo]
      by_cases hik : i = k
      · subst hik
        rw [if_pos (by simp [hk])]
      · have hi : matchesDelivery (entryAt buf i) id = false :=
          hfirst i (by omega) (by omega)
        rw [if_neg (by simp [hi])]
        exact ih (i + 1) k (by omega) (by omega) hk
          (fun j hj1 hj2 => hfirst j (by omega) hj2)

/-- buffer_event preserves the structural invariant. -/
theorem buffer_event_WF (buf : event_ring_buffer_t) (h : BufferWF buf)
    (e : event_t) (m : Int) (p : Bool) (n : Nat) :
    BufferWF (buffer_event buf e m p n).1 := by
  obtain ⟨hh, ht, hc, hht, hl⟩ := h
  simp only [BufferWF, buffer_event, EVENT_BUFFER_SIZE] at *
  by_cases hfull : 10 ≤ buf.count
  · rw [if_pos hfull]
    try dsimp only
    refine ⟨by omega, by omega, by omega, by omega, ?_⟩
    rw [List.length_set]
    exact hl
  · rw [if_neg hfull]
    try dsimp only
    refine ⟨by omega, by omega, by omega, by omega, ?_⟩
    rw [List.length_set]
    exact hl

/-- mark_event_pending preserves the structural invariant. -/
theorem mark_event_pending_WF (buf : event_ring_buffer_t) (h : BufferWF buf)
    (i : Nat) (m : Int) (n : Nat) : BufferWF (mark_event_pending buf i m n) := by
  obtain ⟨hh, ht, hc, hht, hl⟩ := h
  exact ⟨hh, ht, hc, hht, by simp [mark_event_pending, hl]⟩

/-- removeAt preserves the structural invariant when the removed
position is inside the window. -/
theorem removeAt_WF (buf : event_ring_buffer_t) (h : BufferWF buf)
    (i : Nat) (hi : i < buf.count) : BufferWF (removeAt buf i) := by
  obtain ⟨hh, ht, hc, hht, hl⟩ := h
  simp only [BufferWF, removeAt, EVENT_BUFFER_SIZE] at *
  by_cases h0 : i = 0
  · rw [if_pos h0]
    try dsimp only
    exact ⟨by omega, by omega, by omega, by omega, hl⟩
  · rw [if_neg h0]
    by_cases hlast : i = buf.count - 1
    · rw [if_pos hlast]
      try dsimp only
      exact ⟨by omega, by omega, by omega, by omega, hl⟩
    · rw [if_neg hlast]
      try dsimp only
      refine ⟨by omega, by omega, by omega, by omega, ?_⟩
      rw [show (10 : Nat) = EVENT_BUFFER_SIZE from rfl] at hl ⊢
      rw [shiftLoop_length]
      exact hl

/-- mark_event_delivered preserves the structural invariant. -/
theorem mark_event_delivered_WF (buf : event_ring_buffer_t) (h : BufferWF buf)
    (id : Int) : BufferWF (mark_event_delivered buf id) := by
  cases hfind : findPendingIdx buf id with
  | none => rw [mark_event_delivered, hfind]; exact h
  | some i =>
      have hlt := findPendingGo_some_lt buf id buf.count 0 i hfind
      rw [mark_event_delivered, hfind]
      exact removeAt_WF buf h i (by omega)

/-- check_pending_timeouts preserves the structural invariant. -/
theorem check_pending_timeouts_WF (buf : event_ring_buffer_t) (h : BufferWF buf)
    (now : Nat) (c : Bool) (ids : Nat → Int) :
    BufferWF (check_pending_timeouts buf now c ids) := by
  obtain ⟨hh, ht, hc, hht, hl⟩ := h
  obtain ⟨h1, h2, h3, h4⟩ := sweepGo_meta now c ids buf.count buf 0
  exact ⟨by rw [check_pending_timeouts, h1]; exact hh,
    by rw [check_pending_timeouts, h2]; exact ht,
    by rw [check_pending_timeouts, h3]; exact hc,
    by rw [check_pending_timeouts, h1, h2, h3]; exact hht,
    by rw [check_pending_timeouts, h4]; exact hl⟩

/-- Any sequence of operations from a well-formed buffer stays
well-formed. -/
theorem run_ops_preserves_WF :
    ∀ (ops : List buffer_op) (buf : event_ring_buffer_t), BufferWF buf →
      BufferWF (ops.foldl apply_op buf) := by
  intro ops
  induction ops with
  | nil => intro buf h; exact h
  | cons op ops ih =>
      intro buf h
      rw [List.foldl_cons]
      apply ih
      cases op with
      | insert e m p n => exact buffer_event_WF buf h e m p n
      | markPending i m n => exact mark_event_pending_WF buf h i m n
      | deliver m => exact mark_event_delivered_WF buf h m
      | sweep n c ids => exact check_pending_timeouts_WF buf h n c ids

/-- C10: every sequence of ring-buffer operations starting from the
empty buffer preserves the structural invariant — count at most 10, head
and tail below 10, head = (tail + count) mod 10, array length 10 — and
every window access (tail + i) mod 10 for i below count is a valid array
index. -/
theorem ring_buffer_invariant_preserved (ops : List buffer_op) :
    BufferWF (run_ops ops) ∧
    (run_ops ops).count ≤ EVENT_BUFFER_SIZE ∧
    (run_ops ops).head < EVENT_BUFFER_SIZE ∧
    (run_ops ops).tail < EVENT_BUFFER_SIZE ∧
    (run_ops ops).head = ((run_ops ops).tail + (run_ops ops).count) % EVENT_BUFFER_SIZE ∧
    (∀ i, i < (run_ops ops).count →
      ((run_ops ops).tail + i) % EVENT_BUFFER_SIZE < (run_ops ops).events.length) := by
  have hwf : BufferWF (run_ops ops) :=
    run_ops_preserves_WF ops empty_buffer (by decide)
  obtain ⟨hh, ht, hc, hht, hl⟩ := hwf
  refine ⟨⟨hh, ht, hc, hht, hl⟩, hc, hh, ht, hht, ?_⟩
  intro i _
  rw [hl]
  exact Nat.mod_lt _ (by decide)

/-- C9: a delivery acknowledgment whose id matches no pending buffered
entry is a no-op — the buffer, and in particular its count, head and
tail, are unchanged, so count cannot underflow. -/
theorem mark_event_delivered_absent_id_noop (buf : event_ring_buffer_t) (msg_id : Int)
    (h : ∀ i, i < buf.count → matchesDelivery (entryAt buf i) msg_id = false) :
    mark_event_delivered buf msg_id = buf ∧
    (mark_event_delivered buf msg_id).count = buf.count := by
  have hnone : findPendingIdx buf msg_id = none :=
    findPendingGo_none buf msg_id buf.count 0 (fun k _ hk2 => h k (by omega))
  refine ⟨?_, ?_⟩ <;> rw [mark_event_delivered, hnone]

/-- Witness for C9: after one insert and its acknowledgment, a duplicate
acknowledgment of the same id leaves the buffer untouched. -/
theorem mark_event_delivered_absent_id_noop_witness :
    mark_event_delivered (run_ops [.insert default 7 true 0, .deliver 7]) 7 =
      run_ops [.insert default 7 true 0, .deliver 7] ∧
    (mark_event_delivered (run_ops [.insert default 7 true 0, .deliver 7]) 7).count =
      (run_ops [.insert default 7 true 0, .deliver 7]).count :=
  mark_event_delivered_absent_id_noop
    (run_ops [.insert default 7 true 0, .deliver 7]) 7 (by decide)

/-- The FIFO view has count entries. -/
theorem toList_length (buf : event_ring_buffer_t) :
    (toList buf).length = buf.count := by
  simp [toList]

/-- The i-th entry of the FIFO view is the window entry at i. -/
theorem toList_getElem (buf : event_ring_buffer_t) (i : Nat)
    (h : i < (toList buf).length) : (toList buf)[i] = entryAt buf i := by
  simp [toList]

/-- Components of buffer_event on a full buffer. -/
theorem buffer_event_full_components (buf : event_ring_buffer_t)
    (hfull : EVENT_BUFFER_SIZE ≤ buf.count) (e : event_t) (m : Int) (p : Bool) (n : Nat) :
    (buffer_event buf e m p n).1 =
      { events := buf.events.set buf.head
          { event := e, msg_id := m, pending := p, timestamp := n },
        head := (buf.head + 1) % EVENT_BUFFER_SIZE,
        tail := (buf.tail + 1) % EVENT_BUFFER_SIZE,
        count := buf.count - 1 + 1 } := by
  simp [buffer_event, if_pos hfull]

/-- Components of buffer_event on a non-full buffer. -/
theorem buffer_event_nonfull_components (buf : event_ring_buffer_t)
    (hfull : ¬ EVENT_BUFFER_SIZE ≤ buf.count) (e : event_t) (m : Int) (p : Bool) (n : Nat) :
    (buffer_event buf e m p n).1 =
      { events := buf.events.set buf.head
          { event := e, msg_id := m, pending := p, timestamp := n },
        head := (buf.head + 1) % EVENT_BUFFER_SIZE,
        tail := buf.tail,
        count := buf.count + 1 } := by
  simp [buffer_event, if_neg hfull]

/-- Inserting into a non-full well-formed buffer appends the new entry to
the FIFO view; inserting into a full buffer drops the oldest entry and
appends the new one. -/
theorem buffer_event_toList (buf : event_ring_buffer_t) (h : BufferWF buf)
    (e : event_t) (m : Int) (p : Bool) (n : Nat) :
    toList (buffer_event buf e m p n).1 =
      (if EVENT_BUFFER_SIZE ≤ buf.count then (toList buf).drop 1 else toList buf) ++
        [{ event := e, msg_id := m, pending := p, timestamp := n }] := by
  obtain ⟨hh, ht, hc, hht, hl⟩ := h
  by_cases hfull : EVENT_BUFFER_SIZE ≤ buf.count
  · have hc10 : buf.count = 10 := by
      simp [EVENT_BUFFER_SIZE] at hc hfull
      omega
    have hhead : buf.head = buf.tail := by
      rw [hht, hc10]
      simp [EVENT_BUFFER_SIZE]
      omega
    rw [if_pos hfull, buffer_event_full_components buf hfull]
    apply List.ext_getElem
    · simp [toList_length, toList, hc10]
    · intro i h1 h2
      have hi : i < 10 := by
        simp [toList_length, hc10] at h1
        omega
      rw [toList_getElem]
      show (buf.events.set buf.head
          { event := e, msg_id := m, pending := p, timestamp := n }).getD
          (((buf.tail + 1) % EVENT_BUFFER_SIZE + i) % EVENT_BUFFER_SIZE) default = _
      have hslot : ((buf.tail + 1) % EVENT_BUFFER_SIZE + i) % EVENT_BUFFER_SIZE =
          (buf.tail + 1 + i) % EVENT_BUFFER_SIZE := by
        simp only [EVENT_BUFFER_SIZE]
        omega
      rw [hslot]
      by_cases hlast : i = 9
      · have hsl : (buf.tail + 1 + i) % EVENT_BUFFER_SIZE = buf.head := by
          rw [hhead, hlast]
          simp only [EVENT_BUFFER_SIZE] at ht ⊢
          omega
        rw [hsl, getD_set_self _ _ _ _ (by rw [hl]; exact hh)]
        have hlen : ((toList buf).drop 1).length = 9 := by
          simp [toList_length, hc10]
        rw [List.getElem_append_right (by omega)]
        simp [hlen, hlast]
      · have hne : buf.head ≠ (buf.tail + 1 + i) % EVENT_BUFFER_SIZE := by
          rw [hhead]
          simp only [EVENT_BUFFER_SIZE] at ht ⊢
          omega
        rw [getD_set_ne _ _ _ _ _ hne]
        have hlen : ((toList buf).drop 1).length = 9 := by
          simp [toList_length, hc10]
        rw [List.getElem_append_left (by omega)]
        rw [List.getElem_drop]
        rw [toList_getElem]
        show _ = buf.events.getD ((buf.tail + (1 + i)) % EVENT_BUFFER_SIZE) default
        have harith : buf.tail + 1 + i = buf.tail + (1 + i) := by omega
        rw [harith]
  · have hcnt : buf.count < 10 := by
      simp only [EVENT_BUFFER_SIZE] at hfull
      omega
    rw [if_neg hfull, buffer_event_nonfull_components buf hfull]
    apply List.ext_getElem
    · simp [toList_length, toList]
    · intro i h1 h2
      have hi : i < buf.count + 1 := by
        simp [toList_length, toList] at h1
        omega
      rw [toList_getElem]
      show (buf.events.set buf.head
          { event := e, msg_id := m, pending := p, timestamp := n }).getD
          ((buf.tail + i) % EVENT_BUFFER_SIZE) default = _
      by_cases hlast : i = buf.count
      · have hsl : (buf.tail + i) % EVENT_BUFFER_SIZE = buf.head := by
          rw [hht, hlast]
        rw [hsl, getD_set_self _ _ _ _ (by rw [hl]; exact hh)]
        rw [List.getElem_append_right (by rw [toList_length]; omega)]
        simp [toList_length, hlast]
      · have hne : buf.head ≠ (buf.tail + i) % EVENT_BUFFER_SIZE := by
          rw [hht]
          simp only [EVENT_BUFFER_SIZE] at ht hc ⊢
          omega
        rw [getD_set_ne _ _ _ _ _ hne]
        rw [List.getElem_append_left (by rw [toList_length]; omega)]
        rw [toList_getElem]
        rfl

/-- Running any sequence of inserts from the empty buffer: the count is
the number of inserts capped at capacity, the FIFO view is the suffix of
the last capacity inserted entries in order, and one warning is recorded
per eviction. -/
theorem run_inserts_spec (xs : List insert_call) :
    BufferWF (run_inserts (empty_buffer, 0) xs).1 ∧
    (run_inserts (empty_buffer, 0) xs).1.count = min xs.length EVENT_BUFFER_SIZE ∧
    toList (run_inserts (empty_buffer, 0) xs).1 =
      (xs.map mkEntry).drop (xs.length - EVENT_BUFFER_SIZE) ∧
    (run_inserts (empty_buffer, 0) xs).2 = xs.length - EVENT_BUFFER_SIZE := by
  induction xs using List.reverseRecOn with
  | nil =>
      refine ⟨by decide, by decide, ?_, by decide⟩
      simp [run_inserts, toList, empty_buffer]
  | append_singleton xs x ih =>
      obtain ⟨hwf, hcount, hlist, hwarn⟩ := ih
      have hstep : run_inserts (empty_buffer, 0) (xs ++ [x]) =
          ((buffer_event (run_inserts (empty_buffer, 0) xs).1 x.e x.msg_id x.pending x.now).1,
            (run_inserts (empty_buffer, 0) xs).2 +
              if (buffer_event (run_inserts (empty_buffer, 0) xs).1
                  x.e x.msg_id x.pending x.now).2 then 1 else 0) := by
        rw [run_inserts, List.foldl_append]
        rfl
      have hwf' : BufferWF (run_inserts (empty_buffer, 0) (xs ++ [x])).1 := by
        rw [hstep]
        exact buffer_event_WF _ hwf _ _ _ _
      have htl := buffer_event_toList (run_inserts (empty_buffer, 0) xs).1 hwf
        x.e x.msg_id x.pending x.now
      by_cases hfull : EVENT_BUFFER_SIZE ≤ (run_inserts (empty_buffer, 0) xs).1.count
      · have hxs10 : EVENT_BUFFER_SIZE ≤ xs.length := by
          rw [hcount] at hfull
          simp [EVENT_BUFFER_SIZE] at hfull ⊢
          omega
        refine ⟨hwf', ?_, ?_, ?_⟩
        · rw [hstep]
          rw [buffer_event_full_components _ hfull]
          show (run_inserts (empty_buffer, 0) xs).1.count - 1 + 1 = _
          rw [hcount]
          simp only [EVENT_BUFFER_SIZE, List.length_append, List.length_singleton] at hxs10 ⊢
          omega
        · rw [hstep]
          rw [htl, if_pos hfull, hlist]
          rw [List.drop_drop]
          have hmk : (xs ++ [x]).map mkEntry = xs.map mkEntry ++ [mkEntry x] := by
            simp
          rw [hmk]
          have hdrop : ((xs ++ [x]).length - EVENT_BUFFER_SIZE) ≤ (xs.map mkEntry).length := by
            simp [EVENT_BUFFER_SIZE] at hxs10 ⊢
            try omega
          rw [List.drop_append_of_le_length hdrop]
          have harith : xs.length - EVENT_BUFFER_SIZE + 1 =
              (xs ++ [x]).length - EVENT_BUFFER_SIZE := by
            simp [EVENT_BUFFER_SIZE] at hxs10 ⊢
            omega
          rw [harith]
          try simp [mkEntry]
        · rw [hstep]
          have hwd : (buffer_event (run_inserts (empty_buffer, 0) xs).1
              x.e x.msg_id x.pending x.now).2 = true := by
            simp [buffer_event]
            exact hfull
          rw [hwd]
          simp only [if_pos rfl]
          rw [hwarn]
          simp [EVENT_BUFFER_SIZE] at hxs10 ⊢
          omega
      · have hxs10 : xs.length < EVENT_BUFFER_SIZE := by
          rw [hcount] at hfull
          simp [EVENT_BUFFER_SIZE] at hfull ⊢
          omega
        refine ⟨hwf', ?_, ?_, ?_⟩
        · rw [hstep]
          rw [buffer_event_nonfull_components _ hfull]
          show (run_inserts (empty_buffer, 0) xs).1.count + 1 = _
          rw [hcount]
          simp only [EVENT_BUFFER_SIZE, List.length_append, List.length_singleton] at hxs10 ⊢
          omega
        · rw [hstep]
          rw [htl, if_neg hfull, hlist]
          have hz : xs.length - EVENT_BUFFER_SIZE = 0 := by
            simp [EVENT_BUFFER_SIZE] at hxs10 ⊢
            omega
          have hz' : (xs ++ [x]).length - EVENT_BUFFER_SIZE = 0 := by
            simp [EVENT_BUFFER_SIZE] at hxs10 ⊢
            omega
          rw [hz, hz']
          simp [mkEntry]
        · rw [hstep]
          have hwd : (buffer_event (run_inserts (empty_buffer, 0) xs).1
              x.e x.msg_id x.pending x.now).2 = false := by
            simp [buffer_event]
            omega
          rw [hwd]
          simp only [Bool.false_eq_true, if_false]
          rw [hwarn]
          simp [EVENT_BUFFER_SIZE] at hxs10 ⊢
          omega

/-- C2 (amended): starting from the empty buffer, any run of more than
EVENT_BUFFER_SIZE buffer_event calls with no interleaved removals leaves
exactly 10 entries, namely the 10 most recently inserted ones in
insertion order, and logs one buffer-full warning per eviction
(insertions beyond capacity). -/
theorem buffer_event_overflow_keeps_most_recent (xs : List insert_call)
    (h : EVENT_BUFFER_SIZE < xs.length) :
    (run_inserts (empty_buffer, 0) xs).1.count = EVENT_BUFFER_SIZE ∧
    toList (run_inserts (empty_buffer, 0) xs).1 =
      (xs.map mkEntry).drop (xs.length - EVENT_BUFFER_SIZE) ∧
    ((xs.map mkEntry).drop (xs.length - EVENT_BUFFER_SIZE)).length = EVENT_BUFFER_SIZE ∧
    (run_inserts (empty_buffer, 0) xs).2 = xs.length - EVENT_BUFFER_SIZE := by
  obtain ⟨_, hcount, hlist, hwarn⟩ := run_inserts_spec xs
  refine ⟨?_, hlist, ?_, hwarn⟩
  · rw [hcount]
    simp [EVENT_BUFFER_SIZE] at h ⊢
    omega
  · simp [EVENT_BUFFER_SIZE] at h ⊢
    omega

/-- Witness for C2 at eleven identical inserts: ten entries remain and
one warning is recorded. -/
theorem buffer_event_overflow_keeps_most_recent_witness :
    (run_inserts (empty_buffer, 0)
      (List.replicate 11 { e := default, msg_id := 1, pending := false, now := 0 })).1.count =
      EVENT_BUFFER_SIZE ∧
    (run_inserts (empty_buffer, 0)
      (List.replicate 11 { e := default, msg_id := 1, pending := false, now := 0 })).2 =
      (List.replicate 11
        ({ e := default, msg_id := 1, pending := false, now := 0 } : insert_call)).length -
        EVENT_BUFFER_SIZE :=
  ⟨(buffer_event_overflow_keeps_most_recent _ (by decide)).1,
   (buffer_event_overflow_keeps_most_recent _ (by decide)).2.2.2⟩

/-- C2 counterexample: the claim quantifies over all interleavings of N
inserts and M acknowledged removals with N - M above capacity and asserts
the buffer then holds exactly 10 entries.  After 12 inserts (two
evictions) followed by one acknowledged removal of msg_id 5 — so
N - M = 11 > 10 — the buffer holds 9 entries, not 10. -/
theorem ring_buffer_count_after_ack_counterexample :
    (run_ops [.insert default 1 true 0, .insert default 2 true 0, .insert default 3 true 0,
      .insert default 4 true 0, .insert default 5 true 0, .insert default 6 true 0,
      .insert default 7 true 0, .insert default 8 true 0, .insert default 9 true 0,
      .insert default 10 true 0, .insert default 11 true 0, .insert default 12 true 0,
      .deliver 5]).count = 9 ∧
    (9 : Nat) ≠ EVENT_BUFFER_SIZE ∧ EVENT_BUFFER_SIZE < 12 - 1 := by
  exact ⟨by decide, by decide, by decide⟩

/-- The shift loop leaves every slot outside its write range
unchanged. -/
theorem shiftLoop_get_miss (tail : Nat) :
    ∀ (i : Nat) (events : List buffered_event_t) (k : Nat),
      tail < EVENT_BUFFER_SIZE → i ≤ 9 →
      (∀ j, 1 ≤ j → j ≤ i → k ≠ (tail + j) % EVENT_BUFFER_SIZE) →
      (shiftLoop events tail i).getD k default = events.getD k default := by
  intro i
  induction i with
  | zero => intro events k _ _ _; rfl
  | succ i ih =>
      intro events k htail hle hk
      rw [shiftLoop]
      rw [ih _ k htail (by omega) (fun j hj1 hj2 => hk j hj1 (by omega))]
      exact getD_set_ne _ _ _ _ _ (fun hcontra =>
        hk (i + 1) (by omega) (by omega) (by rw [← hcontra]; ring_nf))

/-- Inside its write range, the shift loop moves each entry one slot
toward the head: slot (tail + j) receives the old entry of slot
(tail + j - 1). -/
theorem shiftLoop_get_hit (tail : Nat) :
    ∀ (i : Nat) (events : List buffered_event_t) (j : Nat),
      tail < EVENT_BUFFER_SIZE → i ≤ 9 → 1 ≤ j → j ≤ i →
      events.length = EVENT_BUFFER_SIZE →
      (shiftLoop events tail i).getD ((tail + j) % EVENT_BUFFER_SIZE) default =
        events.getD ((tail + j - 1) % EVENT_BUFFER_SIZE) default := by
  intro i
  induction i with
  | zero => intro events j _ _ h1 h2 _; omega
  | succ i ih =>
      intro events j htail hle hj1 hj2 hlen
      rw [shiftLoop]
      by_cases hji : j ≤ i
      · rw [ih _ j htail (by omega) hj1 hji (by rw [List.length_set]; exact hlen)]
        apply getD_set_ne
        intro hcontra
        have h10 : (10 : Nat) = EVENT_BUFFER_SIZE := rfl
        simp only [EVENT_BUFFER_SIZE] at hcontra htail hle ⊢
        omega
      · have hjeq : j = i + 1 := by omega
        subst hjeq
        rw [shiftLoop_get_miss tail i _ _ htail (by omega)
          (fun j' hj1' hj2' => by
            intro hcontra
            simp only [EVENT_BUFFER_SIZE] at hcontra htail ⊢
            omega)]
        have harith : tail + (i + 1) = tail + i + 1 := by omega
        rw [harith]
        rw [getD_set_self _ _ _ _ (by rw [hlen]; exact Nat.mod_lt _ (by decide))]
        have harith2 : tail + i + 1 - 1 = tail + i := by omega
        rw [harith2]

/-- Two lists are equal when they have the same length and the same
entries under getD. -/
theorem ext_getD {α : Type} [Inhabited α] (l1 l2 : List α) (hlen : l1.length = l2.length)
    (h : ∀ k, k < l1.length → l1.getD k default = l2.getD k default) : l1 = l2 := by
  apply List.ext_getElem hlen
  intro n h1 h2
  have hn := h n h1
  rw [List.getD_eq_getElem?_getD, List.getD_eq_getElem?_getD,
    List.getElem?_eq_getElem h1, List.getElem?_eq_getElem h2] at hn
  simpa using hn

/-- getD through an append. -/
theorem getD_append {α : Type} [Inhabited α] (l1 l2 : List α) (k : Nat) :
    (l1 ++ l2).getD k default =
      if k < l1.length then l1.getD k default else l2.getD (k - l1.length) default := by
  rw [List.getD_eq_getElem?_getD, List.getElem?_append]
  by_cases h : k < l1.length
  · rw [if_pos h, if_pos h, List.getD_eq_getElem?_getD]
  · rw [if_neg h, if_neg h, List.getD_eq_getElem?_getD]

/-- getD through a take. -/
theorem getD_take {α : Type} [Inhabited α] (l : List α) (n k : Nat) :
    (l.take n).getD k default = if k < n then l.getD k default else default := by
  rw [List.getD_eq_getElem?_getD, List.getElem?_take]
  by_cases h : k < n
  · rw [if_pos h, if_pos h, List.getD_eq_getElem?_getD]
  · rw [if_neg h, if_neg h]
    rfl

/-- getD through a drop. -/
theorem getD_drop {α : Type} [Inhabited α] (l : List α) (n k : Nat) :
    (l.drop n).getD k default = l.getD (n + k) default := by
  rw [List.getD_eq_getElem?_getD, List.getElem?_drop, List.getD_eq_getElem?_getD]

/-- getD of the FIFO view is the window entry. -/
theorem toList_getD (buf : event_ring_buffer_t) (k : Nat) (h : k < buf.count) :
    (toList buf).getD k default = entryAt buf k := by
  have h2 : k < (toList buf).length := by rw [toList_length]; omega
  rw [List.getD_eq_getElem?_getD, List.getElem?_eq_getElem h2]
  simp [toList_getElem buf k h2]

/-- C7 (amended): when some buffered entry acknowledges the delivery id,
mark_event_delivered removes exactly the first pending entry whose id
matches and preserves the FIFO order of the remaining entries; at the
tail it advances tail in place, at the head it retreats head in place,
and in the middle it shifts the tail-side entries (those inserted before
the acknowledged one) forward and advances tail — the cost is the
distance to the tail, not to the nearer end. -/
theorem mark_event_delivered_fifo_removal (buf : event_ring_buffer_t)
    (hWF : BufferWF buf) (id : Int) (i : Nat) (hi : i < buf.count)
    (hmatch : matchesDelivery (entryAt buf i) id = true)
    (hfirst : ∀ j, j < i → matchesDelivery (entryAt buf j) id = false) :
    findPendingIdx buf id = some i ∧
    toList (mark_event_delivered buf id) =
      (toList buf).take i ++ (toList buf).drop (i + 1) ∧
    (mark_event_delivered buf id).count = buf.count - 1 ∧
    (i = 0 →
      (mark_event_delivered buf id).tail = (buf.tail + 1) % EVENT_BUFFER_SIZE ∧
      (mark_event_delivered buf id).head = buf.head ∧
      (mark_event_delivered buf id).events = buf.events) ∧
    (0 < i → i = buf.count - 1 →
      (mark_event_delivered buf id).head =
        (buf.head + EVENT_BUFFER_SIZE - 1) % EVENT_BUFFER_SIZE ∧
      (mark_event_delivered buf id).tail = buf.tail ∧
      (mark_event_delivered buf id).events = buf.events) ∧
    (0 < i → i < buf.count - 1 →
      (mark_event_delivered buf id).tail = (buf.tail + 1) % EVENT_BUFFER_SIZE ∧
      (mark_event_delivered buf id).head = buf.head) := by
  obtain ⟨hh, ht, hc, hht, hl⟩ := hWF
  have hE : EVENT_BUFFER_SIZE = 10 := rfl
  have hfind : findPendingIdx buf id = some i :=
    findPendingGo_first buf id buf.count 0 i (by omega) (by omega) hmatch
      (fun j _ hj => hfirst j hj)
  have hmark : mark_event_delivered buf id = removeAt buf i := by
    rw [mark_event_delivered, hfind]
  refine ⟨hfind, ?_, ?_, ?_, ?_, ?_⟩
  · rw [hmark]
    by_cases h0 : i = 0
    · subst h0
      rw [removeAt, if_pos rfl]
      apply ext_getD
      · simp [toList_length, List.length_take, List.length_drop]
        try omega
      · intro k hk
        rw [toList_length] at hk
        rw [toList_getD _ k hk]
        show buf.events.getD
          (((buf.tail + 1) % EVENT_BUFFER_SIZE + k) % EVENT_BUFFER_SIZE) default = _
        have hs : ((buf.tail + 1) % EVENT_BUFFER_SIZE + k) % EVENT_BUFFER_SIZE =
            (buf.tail + (1 + k)) % EVENT_BUFFER_SIZE := by
          simp only [hE]
          omega
        rw [hs]
        rw [getD_append]
        simp only [List.take_zero, List.length_nil, Nat.not_lt_zero, if_false,
          Nat.sub_zero, getD_drop]
        rw [toList_getD buf (1 + k) (by
          change k < buf.count - 1 at hk
          omega)]
        rfl
    · by_cases hlast : i = buf.count - 1
      · rw [removeAt, if_neg h0, if_pos hlast]
        apply ext_getD
        · simp [toList_length, List.length_take, List.length_drop]
          try omega
        · intro k hk
          rw [toList_length] at hk
          rw [toList_getD _ k hk]
          show buf.events.getD ((buf.tail + k) % EVENT_BUFFER_SIZE) default = _
          rw [getD_append, getD_take]
          have hkc : k < buf.count - 1 := hk
          have hklt : k < i := by omega
          rw [if_pos (by simp [List.length_take, toList_length]; omega), if_pos hklt]
          rw [toList_getD buf k (by omega)]
          rfl
      · have hmid : 0 < i ∧ i < buf.count - 1 := by omega
        rw [removeAt, if_neg h0, if_neg hlast]
        apply ext_getD
        · simp [toList_length, List.length_take, List.length_drop]
          try omega
        · intro k hk
          rw [toList_length] at hk
          rw [toList_getD _ k hk]
          show (shiftLoop buf.events buf.tail i).getD
            (((buf.tail + 1) % EVENT_BUFFER_SIZE + k) % EVENT_BUFFER_SIZE) default = _
          have hkc : k < buf.count - 1 := hk
          have hs : ((buf.tail + 1) % EVENT_BUFFER_SIZE + k) % EVENT_BUFFER_SIZE =
              (buf.tail + (1 + k)) % EVENT_BUFFER_SIZE := by
            simp only [hE]
            omega
          rw [hs]
          by_cases hki : k < i
          · rw [shiftLoop_get_hit buf.tail i buf.events (1 + k) ht (by omega)
              (by omega) (by omega) hl]
            rw [getD_append, getD_take]
            rw [if_pos (by simp [List.length_take, toList_length]; omega), if_pos hki]
            rw [toList_getD buf k (by omega)]
            have harith : buf.tail + (1 + k) - 1 = buf.tail + k := by omega
            rw [harith]
            rfl
          · rw [shiftLoop_get_miss buf.tail i buf.events _ ht (by omega)
              (fun j hj1 hj2 => by
                intro hcontra
                simp only [hE] at hcontra ht
                omega)]
            rw [getD_append, getD_take]
            rw [if_neg (by simp [List.length_take, toList_length]; omega)]
            have hlen_take : ((toList buf).take i).length = i := by
              simp [List.length_take, toList_length]
              omega
            rw [hlen_take, getD_drop]
            rw [toList_getD buf (i + 1 + (k - i)) (by omega)]
            show buf.events.getD ((buf.tail + (1 + k)) % EVENT_BUFFER_SIZE) default =
              buf.events.getD ((buf.tail + (i + 1 + (k - i))) % EVENT_BUFFER_SIZE) default
            have harith : buf.tail + (1 + k) = buf.tail + (i + 1 + (k - i)) := by omega
            rw [harith]
  · rw [hmark, removeAt]
    by_cases h0 : i = 0
    · rw [if_pos h0]
    · rw [if_neg h0]
      by_cases hlast : i = buf.count - 1
      · rw [if_pos hlast]
      · rw [if_neg hlast]
  · intro h0
    rw [hmark, removeAt, if_pos h0]
    exact ⟨rfl, rfl, rfl⟩
  · intro h0 hlast
    rw [hmark, removeAt, if_neg (by omega), if_pos hlast]
    exact ⟨rfl, rfl, rfl⟩
  · intro h0 hmid
    rw [hmark, removeAt, if_neg (by omega), if_neg (by omega)]
    exact ⟨rfl, rfl⟩

/-- Witness for C7: acknowledging msg_id 11 in the demo buffer finds the
first match at window position 1 and removes exactly that entry from the
FIFO view. -/
theorem mark_event_delivered_fifo_removal_witness :
    findPendingIdx shorter_side_demo_buffer 11 = some 1 ∧
    toList (mark_event_delivered shorter_side_demo_buffer 11) =
      (toList shorter_side_demo_buffer).take 1 ++
        (toList shorter_side_demo_buffer).drop (1 + 1) :=
  ⟨(mark_event_delivered_fifo_removal shorter_side_demo_buffer (by decide) 11 1
      (by decide) (by decide) (by decide)).1,
   (mark_event_delivered_fifo_removal shorter_side_demo_buffer (by decide) 11 1
      (by decide) (by decide) (by decide)).2.1⟩

/-- C7 counterexample: the claim says a middle removal shifts the shorter
side of the buffer.  Acknowledging msg_id 12 in the demo buffer removes
window position 2 of 4, whose head side (one entry) is shorter than its
tail side (two entries); the code nevertheless shifts the tail side and
advances tail (tail becomes 1, head stays 4), while the shorter-side
strategy of the claim leaves tail at 0 and retreats head to 3 — the two
results are different buffers. -/
theorem mark_event_delivered_shifts_tail_side_counterexample :
    shorter_side_demo_buffer.count - 1 - 2 < 2 ∧
    (mark_event_delivered shorter_side_demo_buffer 12).tail = 1 ∧
    (mark_event_delivered shorter_side_demo_buffer 12).head = 4 ∧
    (removeShorterSide shorter_side_demo_buffer 2).tail = 0 ∧
    (removeShorterSide shorter_side_demo_buffer 2).head = 3 ∧
    mark_event_delivered shorter_side_demo_buffer 12 ≠
      removeShorterSide shorter_side_demo_buffer 2 := by
  exact ⟨by decide, by decide, by decide, by decide, by decide, by decide⟩

/-- The sweep loop leaves window positions before its start index
unchanged. -/
theorem sweepGo_get_lt (now : Nat) (c : Bool) (ids : Nat → Int) :
    ∀ (fuel : Nat) (buf : event_ring_buffer_t) (i k : Nat),
      buf.tail < EVENT_BUFFER_SIZE → i + fuel ≤ EVENT_BUFFER_SIZE → k < i →
      entryAt (sweepGo now c ids buf i fuel) k = entryAt buf k := by
  intro fuel
  induction fuel with
  | zero => intro buf i k _ _ _; rfl
  | succ fuel ih =>
      intro buf i k htail hbound hk
      rw [sweepGo]
      have hrec := ih
        { buf with
          events := buf.events.set ((buf.tail + i) % EVENT_BUFFER_SIZE)
            (sweepEntry (buf.events.getD ((buf.tail + i) % EVENT_BUFFER_SIZE) default)
              now c (ids i)) }
        (i + 1) k htail (by omega) (by omega)
      rw [hrec]
      show (buf.events.set ((buf.tail + i) % EVENT_BUFFER_SIZE) _).getD
        ((buf.tail + k) % EVENT_BUFFER_SIZE) default = _
      apply getD_set_ne
      intro hcontra
      have hE : EVENT_BUFFER_SIZE = 10 := rfl
      simp only [hE] at hcontra htail hbound
      omega

/-- Each window position scanned by the sweep loop ends up holding the
per-entry update of its original entry. -/
theorem sweepGo_get_in (now : Nat) (c : Bool) (ids : Nat → Int) :
    ∀ (fuel : Nat) (buf : event_ring_buffer_t) (i k : Nat),
      buf.tail < EVENT_BUFFER_SIZE → i + fuel ≤ EVENT_BUFFER_SIZE →
      buf.events.length = EVENT_BUFFER_SIZE →
      i ≤ k → k < i + fuel →
      entryAt (sweepGo now c ids buf i fuel) k =
        sweepEntry (entryAt buf k) now c (ids k) := by
  intro fuel
  induction fuel with
  | zero => intro buf i k _ _ _ h1 h2; omega
  | succ fuel ih =>
      intro buf i k htail hbound hlen hik hk
      rw [sweepGo]
      by_cases hki : k = i
      · subst hki
        rw [sweepGo_get_lt now c ids fuel
          { buf with
            events := buf.events.set ((buf.tail + k) % EVENT_BUFFER_SIZE)
              (sweepEntry (buf.events.getD ((buf.tail + k) % EVENT_BUFFER_SIZE) default)
                now c (ids k)) }
          (k + 1) k htail (by omega) (by omega)]
        show (buf.events.set ((buf.tail + k) % EVENT_BUFFER_SIZE) _).getD
          ((buf.tail + k) % EVENT_BUFFER_SIZE) default = _
        rw [getD_set_self _ _ _ _ (by rw [hlen]; exact Nat.mod_lt _ (by decide))]
        rfl
      · rw [ih
          { buf with
            events := buf.events.set ((buf.tail + i) % EVENT_BUFFER_SIZE)
              (sweepEntry (buf.events.getD ((buf.tail + i) % EVENT_BUFFER_SIZE) default)
                now c (ids i)) }
          (i + 1) k htail (by omega) (by simp [hlen]) (by omega) (by omega)]
        show sweepEntry ((buf.events.set ((buf.tail + i) % EVENT_BUFFER_SIZE) _).getD
          ((buf.tail + k) % EVENT_BUFFER_SIZE) default) now c (ids k) = _
        rw [getD_set_ne _ _ _ _ _ (by
          intro hcontra
          have hE : EVENT_BUFFER_SIZE = 10 := rfl
          simp only [hE] at hcontra htail hbound
          omega)]
        rfl

/-- C8: in a well-formed buffer, any entry that is still pending once the
10-second deadline has elapsed since its recorded send tick (computed by
wrap-safe unsigned subtraction) is, on a run of check_pending_timeouts,
republished with the fresh publish id and the current tick when connected
and the publish succeeds, demoted to not pending when the republish
fails, and demoted to not pending when disconnected; unsigned subtraction
of wrapped tick counters recovers the true elapsed time whenever it is
below 2^32; and publish_telemetry marks the entry it just buffered as
pending with the publish id, recording now * portTICK_PERIOD_MS as its
send time. -/
theorem check_pending_timeouts_republish_or_demote (buf : event_ring_buffer_t)
    (hWF : BufferWF buf) (now : Nat) (connected : Bool) (newIds : Nat → Int)
    (i : Nat) (hi : i < buf.count)
    (hp : (entryAt buf i).pending = true)
    (htout : timeout_ticks ≤ tickDiff now (entryAt buf i).timestamp) :
    (connected = true → 0 ≤ newIds i →
      entryAt (check_pending_timeouts buf now connected newIds) i =
        { entryAt buf i with msg_id := newIds i, timestamp := now }) ∧
    (connected = true → newIds i < 0 →
      entryAt (check_pending_timeouts buf now connected newIds) i =
        { entryAt buf i with pending := false }) ∧
    (connected = false →
      entryAt (check_pending_timeouts buf now connected newIds) i =
        { entryAt buf i with pending := false }) ∧
    (∀ t0 t1 : Nat, t0 ≤ t1 → t1 - t0 < UINT32_MOD →
      tickDiff (t1 % UINT32_MOD) (t0 % UINT32_MOD) = t1 - t0) ∧
    (∀ (e : event_t) (pubId : Int), 0 ≤ pubId →
      entryAt (publish_telemetry buf e now true pubId true)
        ((publish_telemetry buf e now true pubId true).count - 1) =
        { event := e, msg_id := pubId, pending := true,
          timestamp := now * portTICK_PERIOD_MS }) := by
  obtain ⟨hh, ht, hc, hht, hl⟩ := hWF
  have hE : EVENT_BUFFER_SIZE = 10 := rfl
  have hmain : entryAt (check_pending_timeouts buf now connected newIds) i =
      sweepEntry (entryAt buf i) now connected (newIds i) := by
    rw [check_pending_timeouts]
    exact sweepGo_get_in now connected newIds buf.count buf 0 i ht (by omega) hl
      (by omega) (by omega)
  have hcond : ((entryAt buf i).pending = true ∧
      timeout_ticks ≤ tickDiff now (entryAt buf i).timestamp) := ⟨hp, htout⟩
  refine ⟨?_, ?_, ?_, ?_, ?_⟩
  · intro hcon hid
    rw [hmain, sweepEntry, if_pos hcond, if_pos hcon, if_pos hid]
  · intro hcon hid
    rw [hmain, sweepEntry, if_pos hcond, if_pos hcon, if_neg (by omega)]
  · intro hcon
    rw [hmain, sweepEntry, if_pos hcond, if_neg (by rw [hcon]; simp)]
  · intro t0 t1 h1 h2
    simp only [tickDiff, UINT32_MOD] at *
    omega
  · intro e pubId hpub
    rw [publish_telemetry]
    rw [if_neg (by simp)]
    simp only [if_pos rfl, if_pos hpub]
    by_cases hfull : EVENT_BUFFER_SIZE ≤ buf.count
    · have hc10 : buf.count = 10 := by
        simp only [hE] at hc hfull
        omega
      rw [buffer_event_full_components buf hfull]
      show (((buf.events.set buf.head
          { event := e, msg_id := -1, pending := false, timestamp := now }).set
          (((buf.head + 1) % EVENT_BUFFER_SIZE + EVENT_BUFFER_SIZE - 1) % EVENT_BUFFER_SIZE)
          _).getD
          (((buf.tail + 1) % EVENT_BUFFER_SIZE + (buf.count - 1 + 1 - 1)) % EVENT_BUFFER_SIZE)
          default) = _
      have hslot : (((buf.head + 1) % EVENT_BUFFER_SIZE + EVENT_BUFFER_SIZE - 1) %
          EVENT_BUFFER_SIZE) = buf.head := by
        simp only [hE] at hh ⊢
        omega
      have hslot2 : (((buf.tail + 1) % EVENT_BUFFER_SIZE + (buf.count - 1 + 1 - 1)) %
          EVENT_BUFFER_SIZE) = buf.head := by
        rw [hht]
        simp only [hE, hc10] at ht ⊢
        omega
      rw [hslot, hslot2]
      rw [getD_set_self _ _ _ _ (by simp [hl]; simp only [hE] at hh; omega)]
      rw [getD_set_self _ _ _ _ (by rw [hl]; exact hh)]
    · rw [buffer_event_nonfull_components buf hfull]
      show (((buf.events.set buf.head
          { event := e, msg_id := -1, pending := false, timestamp := now }).set
          (((buf.head + 1) % EVENT_BUFFER_SIZE + EVENT_BUFFER_SIZE - 1) % EVENT_BUFFER_SIZE)
          _).getD
          ((buf.tail + (buf.count + 1 - 1)) % EVENT_BUFFER_SIZE) default) = _
      have hslot : (((buf.head + 1) % EVENT_BUFFER_SIZE + EVENT_BUFFER_SIZE - 1) %
          EVENT_BUFFER_SIZE) = buf.head := by
        simp only [hE] at hh ⊢
        omega
      have hslot2 : ((buf.tail + (buf.count + 1 - 1)) % EVENT_BUFFER_SIZE) = buf.head := by
        rw [hht]
        simp only [hE]
        omega
      rw [hslot, hslot2]
      rw [getD_set_self _ _ _ _ (by simp [hl]; simp only [hE] at hh; omega)]
      rw [getD_set_self _ _ _ _ (by rw [hl]; exact hh)]

/-- Witness for C8: a pending entry sent at tick 0 is republished by a
sweep at tick 2000 with the fresh id 99, and the wrap-safe subtraction
recovers an elapsed time across the counter wrap. -/
theorem check_pending_timeouts_republish_or_demote_witness :
    entryAt (check_pending_timeouts timeout_demo_buffer 2000 true (fun _ => 99)) 0 =
      { entryAt timeout_demo_buffer 0 with msg_id := 99, timestamp := 2000 } ∧
    tickDiff (4294967295 % UINT32_MOD) (4294966295 % UINT32_MOD) = 1000 :=
  ⟨(check_pending_timeouts_republish_or_demote timeout_demo_buffer (by decide)
      2000 true (fun _ => 99) 0 (by decide) (by decide) (by decide)).1 rfl (by decide),
   (check_pending_timeouts_republish_or_demote timeout_demo_buffer (by decide)
      2000 true (fun _ => 99) 0 (by decide) (by decide) (by decide)).2.2.2.1
      4294966295 4294967295 (by decide) (by decide)⟩
